import Mathlib

/-!
A shallow embedding of the backup engine of `backup_logic.py` (local executor)
and `main.py` (`ParallelSSHBackupWorker`, remote upload scheduler).

Modelling conventions:
* Filesystem effects are environment data: a directory tree is an `FSTree`
  whose files carry `Option Nat` sizes (`none` models a failing `os.path.getsize`);
  per-item copy/upload failures are boolean fields of the item; the staleness
  environment of one remote item (`sftp.stat` outcome, sidecar content, local
  digest) is a `SkipEnv`.
* Timestamps and sizes are `Nat`; the MD5 primitive itself is not modelled:
  `localHash` stands for the `str` hex digest that `_calculate_md5` computes
  (an opaque `String`), while `sidecarHash` is the stripped BYTES value that
  paramiko's `f.read()` returns for `<remotePath>.hash` (a `List Nat`; paramiko
  file reads return bytes even in text mode), `none` for a raised
  transport/read error. Python 3 never equates a `str` with a `bytes`, which
  the embedding keeps as `pyStrEqBytes`.
* The parallel worker pool of `main.py` is modelled by a sequential loop over
  the queue contents: every queue item is taken exactly once by exactly one
  worker and all counter updates happen under `self._lock`, so the final
  tallies are the same for every interleaving.
* Cooperative cancellation (`_stop_flag`) is modelled by a budget `Nat`: the
  flag is observed set before processing item number `stopBudget` (the loops
  check the flag at every loop head, exactly as the code does).
-/

namespace BackupApp

/-- One manifest entry of `BackupManager._collect_files` (`backup_logic.py`):
`relative_path` is kept as a list of path segments, `fromDir` is
`source_type == "directory"`. -/
structure SrcItem where
  relPath : List String
  size : Nat
  fromDir : Bool
deriving DecidableEq, Repr

/-- `name.startswith "."`, the hidden-name test used by both collectors:
the name is nonempty and its first character is `.`. -/
def isHiddenName (s : String) : Bool :=
  match s.data with
  | [] => false
  | c :: _ => c == '.'

mutual
/-- A source directory as seen by `os.walk`: the files of the directory
(name, `os.path.getsize` outcome) and its named subdirectories. -/
inductive FSTree : Type
  | node : List (String × Option Nat) → DirList → FSTree
/-- The subdirectory list of an `FSTree` node. -/
inductive DirList : Type
  | nil : DirList
  | cons : String → FSTree → DirList → DirList
end

/-- The per-directory file pass of `BackupManager._collect_files`
(lines 131-157): the hidden check runs before `getsize`; a stat error
(`OSError`/`PermissionError`) is logged and the entry dropped. -/
def hereFiles (skipHidden : Bool) (rel : List String) (files : List (String × Option Nat)) :
    List SrcItem :=
  files.filterMap fun f =>
    if skipHidden && isHiddenName f.1 then none
    else f.2.map fun sz => ⟨rel ++ [f.1], sz, true⟩

mutual
/-- `os.walk` phase of `BackupManager._collect_files`: files of the current
root first, then descent into the (pruned) subdirectories. -/
def collectDir (skipHidden : Bool) (rel : List String) : FSTree → List SrcItem
  | .node files dirs => hereFiles skipHidden rel files ++ collectDirs skipHidden rel dirs
/-- Descent into subdirectories; `dirs[:] = [d for d in dirs if not
d.startswith "."]` prunes hidden subtrees before they are visited. -/
def collectDirs (skipHidden : Bool) (rel : List String) : DirList → List SrcItem
  | .nil => []
  | .cons n t rest =>
      (if skipHidden && isHiddenName n then [] else collectDir skipHidden (rel ++ [n]) t)
        ++ collectDirs skipHidden rel rest
end

/-- A loose source file of `BackupManager`: basename, `os.path.exists`
outcome, `os.path.getsize` outcome. -/
structure LooseSrc where
  name : String
  present : Bool
  stat : Option Nat
deriving DecidableEq, Repr

/-- Loose-file pass of `BackupManager._collect_files` (lines 159-181).
Note: this pass has NO hidden-name check in the source. -/
def collectLoose (loose : List LooseSrc) : List SrcItem :=
  loose.filterMap fun f =>
    if !f.present then none
    else f.stat.map fun sz => ⟨[f.name], sz, false⟩

/-- `BackupManager._collect_files`: a missing source directory (`none`) is
logged and skipped; directory items come before loose-file items. -/
def collect_files_local (skipHidden : Bool) (dirs : List (Option FSTree))
    (loose : List LooseSrc) : List SrcItem :=
  ((dirs.filterMap id).map (collectDir skipHidden [])).flatten ++ collectLoose loose

/-- `self.stats["total_size"]`: accumulated over exactly the appended items
(the size is added right before each `all_files.append`). -/
def totalSize (items : List SrcItem) : Nat := (items.map (·.size)).sum

/-- One manifest entry of `ParallelSSHBackupWorker._collect_files`
(`main.py`): `relPath` is the path relative to the source root (the loose
basename for loose files), `remoteRel` the remote-relative path actually
stored in the `(local_path, remote_rel)` tuple, `size` the `getsize` outcome
of the separate size loop (the item is kept even when the stat fails). -/
structure RSrcItem where
  relPath : List String
  remoteRel : List String
  size : Option Nat
deriving DecidableEq, Repr

/-- `ParallelSSHBackupWorker._is_hidden_rel`: some segment starts with `.`
and is neither `.` nor `..`. -/
def is_hidden_rel (parts : List String) : Bool :=
  parts.any fun p => isHiddenName p && !(p == "." || p == "..")

/-- Per-directory file pass of `ParallelSSHBackupWorker._collect_files`
(lines 336-353): hidden-name check, then the redundant `_is_hidden_rel`
check, then the `preserve_structure` namespacing by source-root basename. -/
def rhereFiles (skipHidden preserve : Bool) (baseName : String) (rel : List String)
    (files : List (String × Option Nat)) : List RSrcItem :=
  files.filterMap fun f =>
    if skipHidden && isHiddenName f.1 then none
    else
      let r := rel ++ [f.1]
      if skipHidden && is_hidden_rel r then none
      else some ⟨r, if preserve then baseName :: r else [f.1], f.2⟩

mutual
/-- `os.walk` phase of `ParallelSSHBackupWorker._collect_files`. -/
def rcollectDir (skipHidden preserve : Bool) (baseName : String) (rel : List String) :
    FSTree → List RSrcItem
  | .node files dirs =>
      rhereFiles skipHidden preserve baseName rel files
        ++ rcollectDirs skipHidden preserve baseName rel dirs
/-- Pruned descent, as in the local collector. -/
def rcollectDirs (skipHidden preserve : Bool) (baseName : String) (rel : List String) :
    DirList → List RSrcItem
  | .nil => []
  | .cons n t rest =>
      (if skipHidden && isHiddenName n then []
       else rcollectDir skipHidden preserve baseName (rel ++ [n]) t)
        ++ rcollectDirs skipHidden preserve baseName rel rest
end

/-- Loose-file pass of `ParallelSSHBackupWorker._collect_files`
(lines 356-363): unlike the local collector, hidden basenames ARE filtered
here; there is no existence check (`os.walk`/upload fail later instead). -/
def rcollectLoose (skipHidden : Bool) (loose : List (String × Option Nat)) : List RSrcItem :=
  loose.filterMap fun f =>
    if skipHidden && isHiddenName f.1 then none
    else some ⟨[f.1], [f.1], f.2⟩

/-- `ParallelSSHBackupWorker._collect_files`: each source directory is walked
under its basename namespace (a missing directory yields an empty walk),
then the loose files are appended. -/
def rcollect_files (skipHidden preserve : Bool) (dirs : List (String × FSTree))
    (loose : List (String × Option Nat)) : List RSrcItem :=
  (dirs.map fun d => rcollectDir skipHidden preserve d.1 [] d.2).flatten
    ++ rcollectLoose skipHidden loose

/-- The environment of one `BackupManager._should_skip_file` decision:
whether `os.path.exists(target_path)` holds, and the outcome of the two
`os.path.getmtime` calls (`none` models the caught `OSError`). -/
structure LocalSkipEnv where
  targetPresent : Bool
  mtimes : Option (Nat × Nat)
deriving DecidableEq, Repr

/-- `BackupManager._should_skip_file` (lines 288-298): `False` when the
target is missing, `False` on a stat `OSError`, otherwise
`target_mtime >= source_mtime`. -/
def should_skip_file (e : LocalSkipEnv) : Bool :=
  if !e.targetPresent then false
  else
    match e.mtimes with
    | none => false
    | some (sm, tm) => decide (sm ≤ tm)

/-- One item as processed by `BackupManager._copy_files`: the fields the
target-path rule reads, the source mtime, and whether `os.makedirs` /
`shutil.copy2` would raise on this item (the per-item environment). -/
structure CopyItem where
  sourcePath : String
  baseName : String
  relPath : List String
  sourceRoot : String
  fromDir : Bool
  srcMtime : Nat
  copyFails : Bool
deriving Repr

/-- `source_root.replace(":", "_").lstrip("/")` of `_copy_files`. -/
def sanitizeRoot (s : String) : String :=
  ⟨(s.data.map fun c => if c == ':' then '_' else c).dropWhile fun c => c == '/'⟩

/-- The destination path of `_copy_files` relative to `self.backup_path`
(lines 208-215), as path segments. -/
def targetOf (preserve : Bool) (it : CopyItem) : List String :=
  if preserve && it.fromDir then sanitizeRoot it.sourceRoot :: it.relPath
  else [it.baseName]

/-- The destination filesystem: `(backup_path, relative target segments)`
to the entry's mtime (`none` = no entry). -/
abbrev Dest := String × List String → Option Nat

/-- The mutable state of one `_copy_files` run: destination tree, the two
stats counters the local executor has, and the `backup_log.txt` lines. -/
structure LState where
  dest : Dest
  copied : Nat
  skipped : Nat
  log : List String

/-- The skip decision as `_copy_files` line 219 takes it:
`self.incremental and self._should_skip_file(source_path, target_path)`,
with the stat environment read off the destination state. -/
def stepSkips (incremental preserve : Bool) (bp : String) (st : LState) (it : CopyItem) : Bool :=
  incremental && should_skip_file
    { targetPresent := (st.dest (bp, targetOf preserve it)).isSome
    , mtimes := (st.dest (bp, targetOf preserve it)).map fun tm => (it.srcMtime, tm) }

/-- One iteration of the `_copy_files` loop body (lines 204-243): skip
(`files_skipped += 1`, SKIPPED log line), or a caught per-item error
(`files_skipped += 1`, warning — there is no failed counter), or a copy
(`shutil.copy2` preserves the source mtime, `files_copied += 1`). -/
def copyStep (incremental preserve : Bool) (bp : String) (st : LState) (it : CopyItem) :
    LState :=
  if stepSkips incremental preserve bp st it then
    { st with skipped := st.skipped + 1
            , log := st.log ++ ["SKIPPED: " ++ it.sourcePath] }
  else if it.copyFails then
    { st with skipped := st.skipped + 1
            , log := st.log ++ ["WARNING: " ++ it.sourcePath] }
  else
    { st with
        dest := fun k => if k = (bp, targetOf preserve it) then some it.srcMtime else st.dest k
      , copied := st.copied + 1
      , log := st.log ++ ["COPIED: " ++ it.sourcePath] }

/-- The `_copy_files` loop: the stop flag is checked before each item
(line 200); `stopBudget` is the number of items processed before the flag
is observed set (`≥ length` on an uncancelled run). -/
def copyLoop (incremental preserve : Bool) (bp : String) :
    LState → Nat → List CopyItem → LState
  | st, _, [] => st
  | st, 0, _ :: _ => st
  | st, n + 1, it :: rest =>
      copyLoop incremental preserve bp (copyStep incremental preserve bp st it) n rest

/-- Header lines of `backup_log.txt` (lines 195-197). -/
def headerLines (total : Nat) : List String :=
  ["Backup started", "Total files: " ++ toString total]

/-- Footer lines of `backup_log.txt` (lines 245-248), written after the
loop also when it was stopped by the flag. -/
def footerLines (copied skipped : Nat) : List String :=
  ["Copied: " ++ toString copied, "Skipped: " ++ toString skipped]

/-- `BackupManager._copy_files`: metadata json and log header first, the
loop, then the footer summary. -/
def copyFiles (incremental preserve : Bool) (bp : String) (dest0 : Dest)
    (items : List CopyItem) (stopBudget : Nat) : LState :=
  let st0 : LState := { dest := dest0, copied := 0, skipped := 0, log := headerLines items.length }
  let st := copyLoop incremental preserve bp st0 stopBudget items
  { st with log := st.log ++ footerLines st.copied st.skipped }

/-- The result of `BackupManager.start_backup` in copy mode:
`total_files = len(all_files)` is set before the loop, `save_backup_info`
(last_backup.json) runs after `_copy_files` returns. -/
structure RunResult where
  totalFiles : Nat
  copied : Nat
  skipped : Nat
  log : List String
  lastBackupSaved : Bool
  dest : Dest

/-- `BackupManager.start_backup` around `_copy_files`: only setup faults
(cannot create the backup root / open metadata or log) abort the run with
an error; cooperative cancellation is not an error and still reaches
`save_backup_info`. -/
def runLocalBackup (setupOk incremental preserve : Bool) (bp : String) (dest0 : Dest)
    (items : List CopyItem) (stopBudget : Nat) : Except String RunResult :=
  if setupOk then
    let st := copyFiles incremental preserve bp dest0 items stopBudget
    .ok { totalFiles := items.length, copied := st.copied, skipped := st.skipped
        , log := st.log, lastBackupSaved := true, dest := st.dest }
  else
    .error "setup failure"

/-- The environment of one `ParallelSSHBackupWorker._should_skip_incremental`
decision: the `sftp.stat` outcome as `(st_size, st_mtime)` (`none` = the
call raised), the local size and mtime, the stripped BYTES content of the
`<remotePath>.hash` sidecar as `f.read().strip()` returns it — paramiko file
reads yield `bytes` even when opened with mode `'r'` (`none` =
`sftp.open`/read raised) — and the `str` MD5 hex digest `_calculate_md5`
computes for the local file (`none` = the local read raised). -/
structure SkipEnv where
  remoteStat : Option (Nat × Nat)
  localSize : Nat
  localMtime : Nat
  sidecarHash : Option (List Nat)
  localHash : Option String
deriving DecidableEq, Repr

/-- Python 3 equality between a `str` and a `bytes` value, as evaluated by
`local_hash == remote_hash` at `main.py` line 437: the types differ, so the
comparison is `False` for every pair of values. -/
def pyStrEqBytes (_s : String) (_b : List Nat) : Bool := false

/-- The byte encoding a written-then-read sidecar carries for a hex digest
`str` (ASCII, as `sftp.open(..., 'w').write(local_hash)` stores it). -/
def encodeAscii (s : String) : List Nat := s.data.map Char.toNat

/-- The first (size/mtime) tier of `_should_skip_incremental` (lines
418-428): inside one `try`, so a raised `sftp.stat` makes the whole tier
yield no skip. -/
def metaTierSkips (e : SkipEnv) : Bool :=
  match e.remoteStat with
  | some (rsize, rmtime) => rsize == e.localSize && decide (e.localMtime ≤ rmtime)
  | none => false

/-- `ParallelSSHBackupWorker._should_skip_incremental` (lines 413-441).
The hash tier's `return local_hash == remote_hash` (line 437) compares the
`str` digest to the `bytes` the sidecar read returned, so that branch is
`pyStrEqBytes` — constantly `False`. -/
def should_skip_incremental (incremental useHashCheck : Bool) (e : SkipEnv) : Bool :=
  if !incremental then false
  else if metaTierSkips e then true
  else if useHashCheck then
    match e.sidecarHash, e.localHash with
    | some rh, some lh => pyStrEqBytes lh rh
    | _, _ => false
  else false

/-- Spec transcription (§4.2 remote tier 1): "query remote size+mtime; skip
iff remote size equals local size AND remote mtime ≥ local mtime". -/
def specMetaSkip (e : SkipEnv) : Bool :=
  match e.remoteStat with
  | some (rsize, rmtime) => rsize == e.localSize && decide (e.localMtime ≤ rmtime)
  | none => false

/-- Spec transcription (§4.2 remote tier 2): "read a sidecar file at
`<remotePath>.hash` ...; compute the local file's content digest (MD5) and
skip iff they match" — the sidecar's bytes are the encoding of the local
hex digest exactly when the digests textually match. -/
def specHashSkip (e : SkipEnv) : Bool :=
  match e.sidecarHash, e.localHash with
  | some rh, some lh => rh == encodeAscii lh
  | _, _ => false

/-- With `incremental` enabled the whole decision degenerates to the
metadata tier: the hash tier's comparison is type-mismatched and never
yields a skip. -/
theorem should_skip_eq_metaTier (u : Bool) (e : SkipEnv) :
    should_skip_incremental true u e = metaTierSkips e := by
  unfold should_skip_incremental
  cases h : metaTierSkips e
  · cases u
    · simp [h]
    · simp only [h, Bool.not_true, Bool.false_eq_true, if_false, if_true]
      cases e.sidecarHash <;> cases e.localHash <;> simp [pyStrEqBytes]
  · simp [h]

/-- Remote run statistics (`self._stats` of `ParallelSSHBackupWorker`). -/
structure RStats where
  totalFiles : Nat
  copied : Nat
  skipped : Nat
  failed : Nat
deriving DecidableEq, Repr

/-- One queue item as processed by `_upload_worker`, together with its
per-item environment: the staleness environment and whether the
`sftp.put`-based upload of `_upload_file` would succeed. -/
structure RWorkItem where
  localPath : String
  remoteRel : String
  env : SkipEnv
  uploadOk : Bool
deriving DecidableEq, Repr

/-- The error line `_upload_file` logs on a failed upload
(`"Ошибка загрузки {remote_rel}: …"`): it names the item's path. -/
def uploadErrLine (it : RWorkItem) : String := "Upload error: " ++ it.remoteRel

/-- One `_upload_worker` iteration for one dequeued item (lines 470-489):
skip (`skipped += 1`), successful upload (`files_copied += 1`), or failed
upload (`failed += 1` and the error is logged with the item's path; the
item is not re-queued). All counter updates happen under `self._lock`. -/
def uploadStep (incremental useHashCheck : Bool) (st : RStats) (log : List String)
    (it : RWorkItem) : RStats × List String :=
  if should_skip_incremental incremental useHashCheck it.env then
    ({ st with skipped := st.skipped + 1 }, log)
  else if it.uploadOk then
    ({ st with copied := st.copied + 1 }, log)
  else
    ({ st with failed := st.failed + 1 }, log ++ [uploadErrLine it])

/-- The queue-draining loop of the worker pool: the stop flag is polled
before every dequeue; `stopBudget` is the number of items dequeued before
the flag is observed set. Sequential fold over the FIFO queue contents —
each item is taken exactly once by exactly one worker and the counters are
updated under the lock, so the final tallies are interleaving-independent. -/
def uploadLoop (incremental useHashCheck : Bool) :
    RStats → List String → Nat → List RWorkItem → RStats × List String
  | st, log, _, [] => (st, log)
  | st, log, 0, _ :: _ => (st, log)
  | st, log, n + 1, it :: rest =>
      let p := uploadStep incremental useHashCheck st log it
      uploadLoop incremental useHashCheck p.1 p.2 n rest

/-- `ParallelSSHBackupWorker.start_backup` around the workers:
`total_files = len(items)` is set by `_collect_files`, the queue is filled
with the manifest in collection order, and the pool drains it. -/
def runRemoteUpload (incremental useHashCheck : Bool) (items : List RWorkItem)
    (stopBudget : Nat) : RStats × List String :=
  uploadLoop incremental useHashCheck
    { totalFiles := items.length, copied := 0, skipped := 0, failed := 0 } [] stopBudget items

/-- An item fails in `_upload_worker` iff it is not skipped and its upload
raises. -/
def failsUpload (incremental useHashCheck : Bool) (it : RWorkItem) : Bool :=
  !should_skip_incremental incremental useHashCheck it.env && !it.uploadOk

/-- Each processed local item increments exactly one of the two counters. -/
theorem copyStep_count (inc pres : Bool) (bp : String) (st : LState) (it : CopyItem) :
    (copyStep inc pres bp st it).copied + (copyStep inc pres bp st it).skipped
      = st.copied + st.skipped + 1 := by
  unfold copyStep
  split
  · simp
    omega
  · split
    · simp
      omega
    · simp
      omega

/-- The local loop processes `min stopBudget items.length` items, each
contributing one counter increment. -/
theorem copyLoop_count (inc pres : Bool) (bp : String) :
    ∀ (items : List CopyItem) (st : LState) (n : Nat),
      (copyLoop inc pres bp st n items).copied + (copyLoop inc pres bp st n items).skipped
        = st.copied + st.skipped + min n items.length
  | [], st, n => by simp [copyLoop]
  | _ :: _, st, 0 => by simp [copyLoop]
  | it :: rest, st, n + 1 => by
      have ih := copyLoop_count inc pres bp rest (copyStep inc pres bp st it) n
      simp only [copyLoop] at ih ⊢
      rw [ih, copyStep_count]
      simp only [List.length_cons, Nat.succ_min_succ]
      omega

/-- Each dequeued remote item increments exactly one of the three counters,
and `total_files` is never touched by the workers. -/
theorem uploadStep_count (inc hash : Bool) (st : RStats) (log : List String) (it : RWorkItem) :
    (uploadStep inc hash st log it).1.copied + (uploadStep inc hash st log it).1.skipped
        + (uploadStep inc hash st log it).1.failed
      = st.copied + st.skipped + st.failed + 1
    ∧ (uploadStep inc hash st log it).1.totalFiles = st.totalFiles := by
  unfold uploadStep
  split
  · simp
    omega
  · split
    · simp
      omega
    · simp
      omega

/-- The upload loop processes `min stopBudget items.length` items. -/
theorem uploadLoop_count (inc hash : Bool) :
    ∀ (items : List RWorkItem) (st : RStats) (log : List String) (n : Nat),
      (uploadLoop inc hash st log n items).1.copied
          + (uploadLoop inc hash st log n items).1.skipped
          + (uploadLoop inc hash st log n items).1.failed
        = st.copied + st.skipped + st.failed + min n items.length
      ∧ (uploadLoop inc hash st log n items).1.totalFiles = st.totalFiles
  | [], st, log, n => by simp [uploadLoop]
  | _ :: _, st, log, 0 => by simp [uploadLoop]
  | it :: rest, st, log, n + 1 => by
      have ih := uploadLoop_count inc hash rest (uploadStep inc hash st log it).1
        (uploadStep inc hash st log it).2 n
      have hs := uploadStep_count inc hash st log it
      simp only [uploadLoop] at ih ⊢
      constructor
      · rw [ih.1, hs.1]
        simp only [List.length_cons, Nat.succ_min_succ]
        omega
      · rw [ih.2, hs.2]

/-- C1: for every run that runs to completion, the final statistics satisfy
`filesCopied + filesSkipped + filesFailed == totalFiles` for both executors,
with `totalFiles` the collected-manifest count. The local executor has no
failed counter (every per-item fault increments `files_skipped`), so its
`filesFailed` summand is the literal `0`. -/
theorem c1_stats_partition
    (inc1 pres1 : Bool) (bp : String) (d : Dest) (items1 : List CopyItem) (n1 : Nat)
    (h1 : items1.length ≤ n1)
    (inc2 hash2 : Bool) (items2 : List RWorkItem) (n2 : Nat) (h2 : items2.length ≤ n2) :
    ((copyFiles inc1 pres1 bp d items1 n1).copied
        + (copyFiles inc1 pres1 bp d items1 n1).skipped + 0 = items1.length)
    ∧ ((runRemoteUpload inc2 hash2 items2 n2).1.copied
        + (runRemoteUpload inc2 hash2 items2 n2).1.skipped
        + (runRemoteUpload inc2 hash2 items2 n2).1.failed
        = (runRemoteUpload inc2 hash2 items2 n2).1.totalFiles)
    ∧ (runRemoteUpload inc2 hash2 items2 n2).1.totalFiles = items2.length := by
  refine ⟨?_, ?_, ?_⟩
  · have h := copyLoop_count inc1 pres1 bp items1
      { dest := d, copied := 0, skipped := 0, log := headerLines items1.length } n1
    simp only [copyFiles]
    simp only [h]
    simp [Nat.min_eq_right h1]
  · have h := uploadLoop_count inc2 hash2 items2
      { totalFiles := items2.length, copied := 0, skipped := 0, failed := 0 } [] n2
    simp only [runRemoteUpload]
    rw [h.1, h.2]
    simp [Nat.min_eq_right h2]
  · have h := uploadLoop_count inc2 hash2 items2
      { totalFiles := items2.length, copied := 0, skipped := 0, failed := 0 } [] n2
    simp only [runRemoteUpload]
    rw [h.2]

/-- A concrete local item used to instantiate hypotheses in witnesses. -/
def exCopyItem : CopyItem :=
  { sourcePath := "/s/a", baseName := "a", relPath := ["a"], sourceRoot := "/s"
  , fromDir := true, srcMtime := 3, copyFails := false }

/-- A concrete remote item used to instantiate hypotheses in witnesses. -/
def exRItem : RWorkItem :=
  { localPath := "/s/a", remoteRel := "a"
  , env := { remoteStat := some (4, 7), localSize := 4, localMtime := 5
           , sidecarHash := none, localHash := none }
  , uploadOk := true }

/-- Witness for `c1_stats_partition` at a one-item run of each executor. -/
theorem c1_stats_partition_witness :
    ((copyFiles true true "b" (fun _ => none) [exCopyItem] 2).copied
        + (copyFiles true true "b" (fun _ => none) [exCopyItem] 2).skipped + 0
        = [exCopyItem].length)
    ∧ ((runRemoteUpload true true [exRItem] 2).1.copied
        + (runRemoteUpload true true [exRItem] 2).1.skipped
        + (runRemoteUpload true true [exRItem] 2).1.failed
        = (runRemoteUpload true true [exRItem] 2).1.totalFiles)
    ∧ (runRemoteUpload true true [exRItem] 2).1.totalFiles = [exRItem].length :=
  c1_stats_partition true true "b" (fun _ => none) [exCopyItem] 2 (by decide)
    true true [exRItem] 2 (by decide)

/-- A staleness environment exhibiting the dead hash tier: the metadata
query raised, the sidecar was readable and holds exactly the bytes of the
local hex digest (as `_upload_file` wrote them), and the local digest was
computed. -/
def hashBugEnv : SkipEnv :=
  { remoteStat := none, localSize := 5, localMtime := 10
  , sidecarHash := some (encodeAscii "d41d8cd9"), localHash := some "d41d8cd9" }

/-- C4 names a code bug: the claim (and spec §4.2) say the hash tier skips
iff the local MD5 hex digest equals the sidecar digest, and `_upload_file`
writes sidecars precisely "for future incremental comparisons"; but
`_should_skip_incremental` line 437 compares the `str` digest to the
`bytes` that paramiko's `f.read().strip()` returns, which is `False` for
every pair of values in Python 3. So the decision degenerates to the
metadata tier alone, and at `hashBugEnv` — where the digests textually
match (`specHashSkip`) — the code still refuses to skip. -/
theorem c4_hash_tier_dead :
    (∀ (u : Bool) (e : SkipEnv), should_skip_incremental true u e = specMetaSkip e)
    ∧ should_skip_incremental true true hashBugEnv = false
    ∧ specHashSkip hashBugEnv = true := by
  refine ⟨?_, by decide, by decide⟩
  intro u e
  rw [show specMetaSkip e = metaTierSkips e from rfl]
  exact should_skip_eq_metaTier u e

/-- C5: any transport error during either remote staleness check results in
no skip. (i) If the size/mtime query raises, the metadata tier cannot
conclude, and the hash tier never concludes (its `str == bytes` comparison
is constantly `False`), so the item is re-uploaded — whatever the sidecar
holds. (ii) The sidecar read only happens when the metadata tier did not
skip, and if it raises the item is re-uploaded. -/
theorem c5_transport_error_no_skip :
    (∀ (u : Bool) (e : SkipEnv), e.remoteStat = none →
        should_skip_incremental true u e = false)
    ∧ (∀ (u : Bool) (e : SkipEnv), metaTierSkips e = false → e.sidecarHash = none →
        should_skip_incremental true u e = false) := by
  constructor
  · intro u e hstat
    rw [should_skip_eq_metaTier]
    unfold metaTierSkips
    rw [hstat]
  · intro u e hm _
    rw [should_skip_eq_metaTier]
    exact hm

/-- Witness for `c5_transport_error_no_skip`: a raised stat with a
readable, textually matching sidecar still yields no skip; a raised sidecar
read after an inconclusive metadata tier yields no skip. -/
theorem c5_transport_error_no_skip_witness :
    should_skip_incremental true true
        { remoteStat := none, localSize := 1, localMtime := 1
        , sidecarHash := some (encodeAscii "aa"), localHash := some "aa" } = false
    ∧ should_skip_incremental true true
        { remoteStat := some (1, 0), localSize := 2, localMtime := 1
        , sidecarHash := none, localHash := some "aa" } = false :=
  ⟨c5_transport_error_no_skip.1 true _ rfl,
   c5_transport_error_no_skip.2 true _ (by decide) rfl⟩

/-- C6: when the two mtime stats are readable, `_should_skip_file` returns
`True` iff the destination entry exists and its mtime is ≥ the source's. -/
theorem c6_local_skip_iff (e : LocalSkipEnv) (sm tm : Nat) (h : e.mtimes = some (sm, tm)) :
    should_skip_file e = true ↔ (e.targetPresent = true ∧ sm ≤ tm) := by
  unfold should_skip_file
  rw [h]
  cases e.targetPresent <;> simp

/-- Witness for `c6_local_skip_iff`: an existing, newer destination entry. -/
theorem c6_local_skip_iff_witness :
    should_skip_file { targetPresent := true, mtimes := some (3, 5) } = true :=
  (c6_local_skip_iff _ 3 5 rfl).mpr ⟨rfl, by omega⟩

/-- One worker iteration adds a failure count and an error-log line exactly
for a failing item, and nothing otherwise. -/
theorem uploadStep_failed (inc hash : Bool) (st : RStats) (log : List String)
    (it : RWorkItem) :
    (uploadStep inc hash st log it).1.failed
        = st.failed + (if failsUpload inc hash it then 1 else 0)
    ∧ (uploadStep inc hash st log it).2
        = log ++ (if failsUpload inc hash it then [uploadErrLine it] else []) := by
  unfold uploadStep failsUpload
  split
  · rename_i h
    simp [h]
  · rename_i h
    split
    · rename_i hu
      simp [h, hu]
    · rename_i hu
      simp [h, hu]

/-- Over a drained queue, `failed` counts exactly the failing items and the
error log holds exactly one line (naming the item's path) per failing item,
in order. -/
theorem uploadLoop_failures (inc hash : Bool) :
    ∀ (items : List RWorkItem) (st : RStats) (log : List String) (n : Nat),
      items.length ≤ n →
      (uploadLoop inc hash st log n items).1.failed
          = st.failed + (items.filter (failsUpload inc hash)).length
        ∧ (uploadLoop inc hash st log n items).2
          = log ++ (items.filter (failsUpload inc hash)).map uploadErrLine
  | [], st, log, n, _ => by simp [uploadLoop]
  | it :: rest, st, log, 0, h => by simp at h
  | it :: rest, st, log, n + 1, h => by
      have hlen : rest.length ≤ n := by simpa using h
      have ih := uploadLoop_failures inc hash rest (uploadStep inc hash st log it).1
        (uploadStep inc hash st log it).2 n hlen
      have hs := uploadStep_failed inc hash st log it
      simp only [uploadLoop]
      constructor
      · rw [ih.1, hs.1, List.filter_cons]
        by_cases hf : failsUpload inc hash it = true
        · simp only [hf, if_true, List.length_cons]
          omega
        · simp [hf]
      · rw [ih.2, hs.2, List.filter_cons]
        by_cases hf : failsUpload inc hash it = true <;> simp [hf]

/-- C7: on a remote run that drains the queue, every failing upload is
logged with the item's path, increments `failed` exactly once (one log line
and one count per failing item), the remaining items are still processed
(the three counters partition the whole manifest), and no item is retried
(a failing item contributes exactly one `failed` increment). -/
theorem c7_remote_failures (inc hash : Bool) (items : List RWorkItem) (n : Nat)
    (h : items.length ≤ n) :
    (runRemoteUpload inc hash items n).1.failed
        = (items.filter (failsUpload inc hash)).length
    ∧ (runRemoteUpload inc hash items n).2
        = (items.filter (failsUpload inc hash)).map uploadErrLine
    ∧ (runRemoteUpload inc hash items n).1.copied
        + (runRemoteUpload inc hash items n).1.skipped
        + (runRemoteUpload inc hash items n).1.failed = items.length := by
  have hf := uploadLoop_failures inc hash items
    { totalFiles := items.length, copied := 0, skipped := 0, failed := 0 } [] n h
  have hc := uploadLoop_count inc hash items
    { totalFiles := items.length, copied := 0, skipped := 0, failed := 0 } [] n
  simp only [runRemoteUpload]
  refine ⟨by rw [hf.1]; simp, by rw [hf.2]; simp, ?_⟩
  rw [hc.1]
  simp [Nat.min_eq_right h]

/-- A concrete failing remote item (no skip possible, upload raises). -/
def exFailItem : RWorkItem :=
  { localPath := "/s/b", remoteRel := "b"
  , env := { remoteStat := none, localSize := 1, localMtime := 1
           , sidecarHash := none, localHash := none }
  , uploadOk := false }

/-- Witness for `c7_remote_failures`: a one-item run whose upload fails. -/
theorem c7_remote_failures_witness :
    (runRemoteUpload true true [exFailItem] 1).1.failed
        = ([exFailItem].filter (failsUpload true true)).length
    ∧ (runRemoteUpload true true [exFailItem] 1).2
        = ([exFailItem].filter (failsUpload true true)).map uploadErrLine
    ∧ (runRemoteUpload true true [exFailItem] 1).1.copied
        + (runRemoteUpload true true [exFailItem] 1).1.skipped
        + (runRemoteUpload true true [exFailItem] 1).1.failed = [exFailItem].length :=
  c7_remote_failures true true [exFailItem] 1 (by decide)

/-- Every branch of the `_copy_files` loop body only appends to the log. -/
theorem copyStep_log_extend (inc pres : Bool) (bp : String) (st : LState) (it : CopyItem) :
    ∃ e, (copyStep inc pres bp st it).log = st.log ++ e := by
  unfold copyStep
  split
  · exact ⟨_, rfl⟩
  · split
    · exact ⟨_, rfl⟩
    · exact ⟨_, rfl⟩

/-- The whole `_copy_files` loop only appends to the log. -/
theorem copyLoop_log_extend (inc pres : Bool) (bp : String) :
    ∀ (items : List CopyItem) (st : LState) (n : Nat),
      ∃ e, (copyLoop inc pres bp st n items).log = st.log ++ e
  | [], st, n => ⟨[], by simp [copyLoop]⟩
  | _ :: _, st, 0 => ⟨[], by simp [copyLoop]⟩
  | it :: rest, st, n + 1 => by
      obtain ⟨e1, he1⟩ := copyStep_log_extend inc pres bp st it
      obtain ⟨e2, he2⟩ := copyLoop_log_extend inc pres bp rest (copyStep inc pres bp st it) n
      exact ⟨e1 ++ e2, by simp only [copyLoop]; rw [he2, he1, List.append_assoc]⟩

/-- C8: whenever the stop flag becomes set after `k` items of a local run,
the loop (which polls the flag before each item) processes exactly
`min k totalFiles` items, the log is still finalized with header and footer,
`last_backup.json` is still written, and the run returns normally
(`Except.ok`, never an error) — cancellation is not a failure. -/
theorem c8_cancellation_clean (inc pres : Bool) (bp : String) (d : Dest)
    (items : List CopyItem) (k : Nat) :
    ∃ r, runLocalBackup true inc pres bp d items k = Except.ok r
      ∧ r.lastBackupSaved = true
      ∧ r.copied + r.skipped = min k items.length
      ∧ ∃ body, r.log = headerLines items.length ++ body
            ++ footerLines r.copied r.skipped := by
  refine ⟨_, rfl, rfl, ?_, ?_⟩
  · have h := copyLoop_count inc pres bp items
      { dest := d, copied := 0, skipped := 0, log := headerLines items.length } k
    simpa [copyFiles] using h
  · obtain ⟨e, he⟩ := copyLoop_log_extend inc pres bp items
      { dest := d, copied := 0, skipped := 0, log := headerLines items.length } k
    exact ⟨e, by simp only [copyFiles]; rw [he]⟩

/-- A concrete local item whose copy raises (`shutil.copy2` fails). -/
def exFailCopyItem : CopyItem :=
  { sourcePath := "/s/c", baseName := "c", relPath := ["c"], sourceRoot := "/s"
  , fromDir := true, srcMtime := 3, copyFails := true }

/-- An empty local state over an empty destination. -/
def exLState : LState :=
  { dest := fun _ => none, copied := 0, skipped := 0, log := [] }

/-- C10: in the local executor every per-item error on a non-skipped item
increments `files_skipped` (there is no failed counter) while `files_copied`
is unchanged, the loop continues, and at completion
`files_copied + files_skipped` equals the number of processed items. -/
theorem c10_local_error_policy :
    (∀ (inc pres : Bool) (bp : String) (st : LState) (it : CopyItem),
        stepSkips inc pres bp st it = false → it.copyFails = true →
          (copyStep inc pres bp st it).skipped = st.skipped + 1
          ∧ (copyStep inc pres bp st it).copied = st.copied)
    ∧ (∀ (inc pres : Bool) (bp : String) (d : Dest) (items : List CopyItem) (n : Nat),
        items.length ≤ n →
          (copyFiles inc pres bp d items n).copied
            + (copyFiles inc pres bp d items n).skipped = items.length) := by
  constructor
  · intro inc pres bp st it hskip hfail
    unfold copyStep
    simp [hskip, hfail]
  · intro inc pres bp d items n h
    have hc := copyLoop_count inc pres bp items
      { dest := d, copied := 0, skipped := 0, log := headerLines items.length } n
    simp only [copyFiles]
    simpa [Nat.min_eq_right h] using hc

/-- Witness for `c10_local_error_policy`: a failing item in an empty
destination (so it is not skipped), and a completed one-item run. -/
theorem c10_local_error_policy_witness :
    ((copyStep true true "b" exLState exFailCopyItem).skipped = exLState.skipped + 1
      ∧ (copyStep true true "b" exLState exFailCopyItem).copied = exLState.copied)
    ∧ (copyFiles true true "b" (fun _ => none) [exFailCopyItem] 3).copied
        + (copyFiles true true "b" (fun _ => none) [exFailCopyItem] 3).skipped = 1 :=
  ⟨c10_local_error_policy.1 true true "b" exLState exFailCopyItem rfl rfl,
   by
    have h := c10_local_error_policy.2 true true "b" (fun _ => none) [exFailCopyItem] 3
      (by decide)
    simpa using h⟩

/-- The Scenario-A source directory: files sized 10, 20, 30 plus a hidden
`.secret` of 10 bytes. -/
def c9tree : FSTree :=
  .node [("a", some 10), ("b", some 20), ("c", some 30), (".secret", some 10)] .nil

/-- The manifest collected from the Scenario-A directory with
`skipHidden = true`. -/
def c9manifest : List SrcItem := collect_files_local true [some c9tree] []

/-- Evaluation of the Scenario-A collection. -/
theorem c9manifest_eval :
    c9manifest = [⟨["a"], 10, true⟩, ⟨["b"], 20, true⟩, ⟨["c"], 30, true⟩] := by
  simp [c9manifest, c9tree, collect_files_local, collectDir, collectDirs, hereFiles,
    collectLoose, isHiddenName]

/-- C9 is false as stated: the three non-hidden files all survive the
hidden filter, so the manifest has 3 items of aggregate size 60 bytes, not
2 items of 50 bytes. -/
theorem c9_counterexample :
    ¬ (c9manifest.length = 2 ∧ totalSize c9manifest = 50) := by
  rw [c9manifest_eval]
  decide

/-- C9 amended: the Scenario-A collection with `skipHidden = true` yields
exactly 3 items with aggregate size 60 bytes (only `.secret` is dropped). -/
theorem c9_scenario_a :
    c9manifest.length = 3 ∧ totalSize c9manifest = 60 := by
  rw [c9manifest_eval]
  decide

/-- The one-file unchanged source tree of the idempotence scenario. -/
def c2item : CopyItem :=
  { sourcePath := "/src/a.txt", baseName := "a.txt", relPath := ["a.txt"]
  , sourceRoot := "/src", fromDir := true, srcMtime := 5, copyFails := false }

/-- First local incremental run, into `backup_1`. -/
def c2run1 : LState := copyFiles true true "backup_1" (fun _ => none) [c2item] 1

/-- Second local incremental run over the unchanged tree: `start_backup`
creates a fresh timestamped backup directory, here `backup_2`. -/
def c2run2 : LState := copyFiles true true "backup_2" c2run1.dest [c2item] 1

/-- C2 is false as stated: each run of `start_backup` writes into a fresh
`backup_<timestamp>` directory, so on the second run no destination entry
exists at the new target path and every file is copied again
(`filesCopied = totalFiles`, `filesSkipped = 0`), not skipped. -/
theorem c2_counterexample :
    ¬ (c2run2.copied = 0 ∧ c2run2.skipped = [c2item].length) := by
  decide

/-- The destination holds an entry at least as new as the item's source. -/
def destCovers (pres : Bool) (bp : String) (d : Dest) (it : CopyItem) : Prop :=
  ∃ m, d (bp, targetOf pres it) = some m ∧ it.srcMtime ≤ m

/-- A covered item is skipped by the incremental check. -/
theorem stepSkips_of_covers (pres : Bool) (bp : String) (st : LState) (it : CopyItem)
    (h : destCovers pres bp st.dest it) : stepSkips true pres bp st it = true := by
  obtain ⟨m, hm, hle⟩ := h
  unfold stepSkips should_skip_file
  simp [hm, hle]

/-- If the incremental check does not skip, any existing destination entry
at the item's target is strictly older than the source. -/
theorem lt_of_not_stepSkips (pres : Bool) (bp : String) (st : LState) (it : CopyItem)
    (m : Nat) (h : stepSkips true pres bp st it = false)
    (hm : st.dest (bp, targetOf pres it) = some m) : m < it.srcMtime := by
  unfold stepSkips should_skip_file at h
  simp [hm] at h
  omega

/-- One loop iteration preserves coverage of any item: destination mtimes
never decrease during a run (`copy2` only overwrites strictly older
entries, because the skip check ran first). -/
theorem copyStep_preserves_covers (pres : Bool) (bp : String) (st : LState)
    (it it2 : CopyItem) (h : destCovers pres bp st.dest it2) :
    destCovers pres bp (copyStep true pres bp st it).dest it2 := by
  unfold copyStep
  split
  · exact h
  · split
    · exact h
    · rename_i hskip _
      have hskip2 : stepSkips true pres bp st it = false := by simpa using hskip
      obtain ⟨m, hm, hle⟩ := h
      by_cases hkey : ((bp, targetOf pres it2) : String × List String) = (bp, targetOf pres it)
      · refine ⟨it.srcMtime, ?_, ?_⟩
        · show (if (bp, targetOf pres it2) = (bp, targetOf pres it) then some it.srcMtime
               else st.dest (bp, targetOf pres it2)) = some it.srcMtime
          simp [hkey]
        · have hlt := lt_of_not_stepSkips pres bp st it m hskip2 (hkey ▸ hm)
          omega
      · refine ⟨m, ?_, hle⟩
        show (if (bp, targetOf pres it2) = (bp, targetOf pres it) then some it.srcMtime
             else st.dest (bp, targetOf pres it2)) = some m
        simp [hkey, hm]

/-- The whole loop preserves coverage. -/
theorem copyLoop_preserves_covers (pres : Bool) (bp : String) :
    ∀ (items : List CopyItem) (st : LState) (n : Nat) (it2 : CopyItem),
      destCovers pres bp st.dest it2 →
      destCovers pres bp (copyLoop true pres bp st n items).dest it2
  | [], st, n, it2, h => by simpa [copyLoop] using h
  | _ :: _, st, 0, it2, h => by simpa [copyLoop] using h
  | it :: rest, st, n + 1, it2, h => by
      simp only [copyLoop]
      exact copyLoop_preserves_covers pres bp rest _ n it2
        (copyStep_preserves_covers pres bp st it it2 h)

/-- Processing an item whose copy does not fail leaves it covered: either
it was skipped because the destination was already at least as new, or
`copy2` just wrote it with the source mtime preserved. -/
theorem copyStep_covers_self (pres : Bool) (bp : String) (st : LState) (it : CopyItem)
    (hok : it.copyFails = false) :
    destCovers pres bp (copyStep true pres bp st it).dest it := by
  unfold copyStep
  split
  · rename_i hskip
    unfold stepSkips should_skip_file at hskip
    cases hd : st.dest (bp, targetOf pres it) with
    | none => simp [hd] at hskip
    | some m =>
      refine ⟨m, hd, ?_⟩
      simp [hd] at hskip
      exact hskip
  · split
    · rename_i hfail
      rw [hok] at hfail
      exact absurd hfail (by simp)
    · refine ⟨it.srcMtime, ?_, le_refl _⟩
      show (if (bp, targetOf pres it) = (bp, targetOf pres it) then some it.srcMtime
           else st.dest (bp, targetOf pres it)) = some it.srcMtime
      simp

/-- After a completed, failure-free incremental run, every item of the
manifest is covered by the destination the run produced. -/
theorem copyLoop_covers_all (pres : Bool) (bp : String) :
    ∀ (items : List CopyItem) (st : LState) (n : Nat),
      items.length ≤ n → (∀ it ∈ items, it.copyFails = false) →
      ∀ it ∈ items, destCovers pres bp (copyLoop true pres bp st n items).dest it
  | [], _, _, _, _, it, hit => absurd hit (List.not_mem_nil it)
  | _ :: _, st, 0, h, _, it, hit => by simp at h
  | it0 :: rest, st, n + 1, h, hok, it, hit => by
      simp only [copyLoop]
      rcases List.mem_cons.mp hit with rfl | hmem
      · exact copyLoop_preserves_covers pres bp rest _ n it
          (copyStep_covers_self pres bp st it (hok it hit))
      · exact copyLoop_covers_all pres bp rest _ n (by simpa using h)
          (fun x hx => hok x (List.mem_cons_of_mem _ hx)) it hmem

/-- A completed incremental pass over a destination that covers every item
skips everything and writes nothing. -/
theorem copyLoop_all_skip (pres : Bool) (bp : String) :
    ∀ (items : List CopyItem) (st : LState) (n : Nat),
      items.length ≤ n →
      (∀ it ∈ items, destCovers pres bp st.dest it) →
      (copyLoop true pres bp st n items).copied = st.copied
      ∧ (copyLoop true pres bp st n items).skipped = st.skipped + items.length
      ∧ (copyLoop true pres bp st n items).dest = st.dest
  | [], st, n, _, _ => by simp [copyLoop]
  | _ :: _, st, 0, h, _ => by simp at h
  | it :: rest, st, n + 1, h, hcov => by
      have hskip : stepSkips true pres bp st it = true :=
        stepSkips_of_covers pres bp st it (hcov it (List.mem_cons_self it rest))
      have hstep : copyStep true pres bp st it
          = { st with skipped := st.skipped + 1
                    , log := st.log ++ ["SKIPPED: " ++ it.sourcePath] } := by
        unfold copyStep
        rw [hskip]
        simp
      have ih := copyLoop_all_skip pres bp rest
        { st with skipped := st.skipped + 1
                , log := st.log ++ ["SKIPPED: " ++ it.sourcePath] } n
        (by simpa using h) (fun x hx => hcov x (List.mem_cons_of_mem _ hx))
      simp only [copyLoop, hstep]
      refine ⟨ih.1, ?_, ih.2.2⟩
      rw [ih.2.1]
      simp
      omega

/-- C2 amended: the idempotence the spec states holds only when the second
run writes into the same backup directory as the first (the code puts each
run into a fresh `backup_<YYYYMMDD_HHMMSS>` directory, so this requires the
two runs to share that directory, e.g. the same timestamp second). Then a
second completed, failure-free incremental run over the unchanged tree
copies nothing and skips the whole manifest. -/
theorem c2_amended (pres : Bool) (bp : String) (d0 : Dest) (items : List CopyItem)
    (hok : ∀ it ∈ items, it.copyFails = false)
    (n1 n2 : Nat) (h1 : items.length ≤ n1) (h2 : items.length ≤ n2) :
    (copyFiles true pres bp (copyFiles true pres bp d0 items n1).dest items n2).copied = 0
    ∧ (copyFiles true pres bp (copyFiles true pres bp d0 items n1).dest items n2).skipped
        = items.length := by
  have hcov : ∀ it ∈ items,
      destCovers pres bp (copyFiles true pres bp d0 items n1).dest it := by
    intro it hit
    have h := copyLoop_covers_all pres bp items
      { dest := d0, copied := 0, skipped := 0, log := headerLines items.length } n1 h1 hok it hit
    simpa [copyFiles] using h
  have h := copyLoop_all_skip pres bp items
    { dest := (copyFiles true pres bp d0 items n1).dest, copied := 0, skipped := 0
    , log := headerLines items.length } n2 h2 (fun it hit => hcov it hit)
  exact ⟨by simpa [copyFiles] using h.1, by simpa [copyFiles] using h.2.1⟩

/-- Witness for `c2_amended`: the one-file scenario, both runs into the
same backup directory. -/
theorem c2_amended_witness :
    (copyFiles true true "backup_1"
        (copyFiles true true "backup_1" (fun _ => none) [c2item] 1).dest [c2item] 1).copied = 0
    ∧ (copyFiles true true "backup_1"
        (copyFiles true true "backup_1" (fun _ => none) [c2item] 1).dest [c2item] 1).skipped
        = [c2item].length :=
  c2_amended true "backup_1" (fun _ => none) [c2item] (by decide) 1 1 (by decide) (by decide)

mutual

/-- With `skipHidden = true`, every segment a local directory walk appends
below `rel` is non-hidden. -/
theorem collectDir_no_hidden (rel : List String) :
    ∀ (t : FSTree), ∀ it ∈ collectDir true rel t, ∀ s ∈ it.relPath,
      s ∈ rel ∨ isHiddenName s = false
  | .node files dirs => by
      intro it hit s hs
      simp only [collectDir] at hit
      rcases List.mem_append.mp hit with h | h
      · unfold hereFiles at h
        obtain ⟨f, _, heq⟩ := List.mem_filterMap.mp h
        cases hh : isHiddenName f.1 with
        | true => simp [hh] at heq
        | false =>
          simp [hh] at heq
          obtain ⟨sz, _, heq2⟩ := heq
          rw [← heq2] at hs
          rcases List.mem_append.mp hs with h1 | h1
          · exact Or.inl h1
          · simp at h1
            subst h1
            exact Or.inr hh
      · exact collectDirs_no_hidden rel dirs it h s hs

/-- Companion of `collectDir_no_hidden` for pruned subdirectory lists. -/
theorem collectDirs_no_hidden (rel : List String) :
    ∀ (l : DirList), ∀ it ∈ collectDirs true rel l, ∀ s ∈ it.relPath,
      s ∈ rel ∨ isHiddenName s = false
  | .nil => by
      intro it hit
      simp [collectDirs] at hit
  | .cons n t rest => by
      intro it hit s hs
      simp only [collectDirs] at hit
      rcases List.mem_append.mp hit with h | h
      · cases hh : isHiddenName n with
        | true => simp [hh] at h
        | false =>
          simp only [hh, Bool.and_false, if_neg, Bool.false_eq_true, not_false_iff] at h
          rcases collectDir_no_hidden (rel ++ [n]) t it h s hs with hmem | hfalse
          · rcases List.mem_append.mp hmem with h1 | h1
            · exact Or.inl h1
            · simp at h1
              subst h1
              exact Or.inr hh
          · exact Or.inr hfalse
      · exact collectDirs_no_hidden rel rest it h s hs

end

mutual

/-- With `skipHidden = true`, every source-root-relative segment the remote
directory walk appends below `rel` is non-hidden. -/
theorem rcollectDir_no_hidden (pres : Bool) (base : String) (rel : List String) :
    ∀ (t : FSTree), ∀ it ∈ rcollectDir true pres base rel t, ∀ s ∈ it.relPath,
      s ∈ rel ∨ isHiddenName s = false
  | .node files dirs => by
      intro it hit s hs
      simp only [rcollectDir] at hit
      rcases List.mem_append.mp hit with h | h
      · unfold rhereFiles at h
        obtain ⟨f, _, heq⟩ := List.mem_filterMap.mp h
        cases hh : isHiddenName f.1 with
        | true => simp [hh] at heq
        | false =>
          simp only [hh, Bool.and_false, Bool.true_and, Bool.false_eq_true, if_neg,
            not_false_iff] at heq
          cases hr : is_hidden_rel (rel ++ [f.1]) with
          | true => simp [hr] at heq
          | false =>
            simp [hr] at heq
            rw [← heq] at hs
            rcases List.mem_append.mp hs with h1 | h1
            · exact Or.inl h1
            · simp at h1
              subst h1
              exact Or.inr hh
      · exact rcollectDirs_no_hidden pres base rel dirs it h s hs

/-- Companion of `rcollectDir_no_hidden` for pruned subdirectory lists. -/
theorem rcollectDirs_no_hidden (pres : Bool) (base : String) (rel : List String) :
    ∀ (l : DirList), ∀ it ∈ rcollectDirs true pres base rel l, ∀ s ∈ it.relPath,
      s ∈ rel ∨ isHiddenName s = false
  | .nil => by
      intro it hit
      simp [rcollectDirs] at hit
  | .cons n t rest => by
      intro it hit s hs
      simp only [rcollectDirs] at hit
      rcases List.mem_append.mp hit with h | h
      · cases hh : isHiddenName n with
        | true => simp [hh] at h
        | false =>
          simp only [hh, Bool.and_false, if_neg, Bool.false_eq_true, not_false_iff] at h
          rcases rcollectDir_no_hidden pres base (rel ++ [n]) t it h s hs with hmem | hfalse
          · rcases List.mem_append.mp hmem with h1 | h1
            · exact Or.inl h1
            · simp at h1
              subst h1
              exact Or.inr hh
          · exact Or.inr hfalse
      · exact rcollectDirs_no_hidden pres base rel rest it h s hs

end

/-- Items of the local loose-file pass carry `source_type = "file"`. -/
theorem collectLoose_fromDir (loose : List LooseSrc) :
    ∀ it ∈ collectLoose loose, it.fromDir = false := by
  intro it hit
  unfold collectLoose at hit
  obtain ⟨f, _, heq⟩ := List.mem_filterMap.mp hit
  by_cases hp : f.present = true
  · simp [hp] at heq
    obtain ⟨sz, _, heq2⟩ := heq
    rw [← heq2]
  · simp [hp] at heq

/-- With `skipHidden = true`, the remote loose-file pass keeps only
non-hidden basenames. -/
theorem rcollectLoose_no_hidden (loose : List (String × Option Nat)) :
    ∀ it ∈ rcollectLoose true loose, ∀ s ∈ it.relPath, isHiddenName s = false := by
  intro it hit s hs
  unfold rcollectLoose at hit
  obtain ⟨f, _, heq⟩ := List.mem_filterMap.mp hit
  cases hh : isHiddenName f.1 with
  | true => simp [hh] at heq
  | false =>
    simp [hh] at heq
    rw [← heq] at hs
    simp at hs
    subst hs
    exact hh

/-- C3 is false as stated: the local collector's loose-file pass has no
hidden check, so a hidden loose source file reaches the manifest with a
hidden relative-path segment even under `skipHidden = true`. -/
theorem c3_counterexample :
    ¬ (∀ it ∈ collect_files_local true [] [⟨".secret", true, some 10⟩],
        ∀ s ∈ it.relPath, isHiddenName s = false) := by
  intro h
  exact absurd
    (h ⟨[".secret"], 10, false⟩ (by decide) ".secret" (by decide))
    (by decide)

/-- C3 amended: with `skipHidden = true`, no manifest item that came from a
source directory has a hidden segment in its source-root-relative path, in
either collector (hidden subtrees are pruned before descent), and the
remote collector additionally excludes loose files with hidden basenames,
so every remote manifest item has a hidden-free relative path; the local
collector, however, admits loose source files regardless of a hidden
basename (see `c3_counterexample`). -/
theorem c3_amended :
    (∀ (dirs : List (Option FSTree)) (loose : List LooseSrc) (it : SrcItem),
        it ∈ collect_files_local true dirs loose → it.fromDir = true →
        ∀ s ∈ it.relPath, isHiddenName s = false)
    ∧ (∀ (pres : Bool) (dirs : List (String × FSTree)) (loose : List (String × Option Nat))
        (it : RSrcItem), it ∈ rcollect_files true pres dirs loose →
        ∀ s ∈ it.relPath, isHiddenName s = false) := by
  constructor
  · intro dirs loose it hit hdir s hs
    unfold collect_files_local at hit
    rcases List.mem_append.mp hit with h | h
    · obtain ⟨l, hl, hitl⟩ := List.mem_flatten.mp h
      obtain ⟨t, _, rfl⟩ := List.mem_map.mp hl
      rcases collectDir_no_hidden [] t it hitl s hs with hmem | hfalse
      · exact absurd hmem (List.not_mem_nil s)
      · exact hfalse
    · exact absurd (collectLoose_fromDir loose it h) (by simp [hdir])
  · intro pres dirs loose it hit s hs
    unfold rcollect_files at hit
    rcases List.mem_append.mp hit with h | h
    · obtain ⟨l, hl, hitl⟩ := List.mem_flatten.mp h
      obtain ⟨d, _, rfl⟩ := List.mem_map.mp hl
      rcases rcollectDir_no_hidden pres d.1 [] d.2 it hitl s hs with hmem | hfalse
      · exact absurd hmem (List.not_mem_nil s)
      · exact hfalse
    · exact rcollectLoose_no_hidden loose it h s hs

/-- Witness for `c3_amended`: a visible file of a concrete directory source
on the local side, and a concrete remote collection. -/
theorem c3_amended_witness :
    isHiddenName "f" = false ∧ isHiddenName "g" = false :=
  ⟨c3_amended.1 [some (.node [("f", some 1)] .nil)] [] ⟨["f"], 1, true⟩
      (by simp [collect_files_local, collectDir, collectDirs, hereFiles, collectLoose,
        isHiddenName])
      rfl "f" (by simp),
   c3_amended.2 true [] [("g", some 2)] ⟨["g"], ["g"], some 2⟩
      (by simp [rcollect_files, rcollectLoose, isHiddenName])
      "g" (by simp)⟩

end BackupApp
